import Mathlib

/-!
Verification development for the claude-code-controller orchestration library.

The embedding follows the TypeScript sources: the controller
(`src/controller.ts`), the REST route layer (`src/api/routes.ts`), and the
action tracker (`src/api/action-tracker.ts`) are translated directly.  The
mailbox classifier (`src/inbox.ts`), the task manager (`src/task-manager.ts`)
and the team manager (`src/team-manager.ts`) are not part of the sources at
hand; the definitions standing in for them are modelled from the
specification and say so in their doc comments.
-/

namespace CCC

/-- Value of a JSON object field, restricted to the shapes the protocol
envelopes of this program actually use (strings and booleans). -/
inductive JVal where
  | str (s : String)
  | toggle (b : Bool)
deriving DecidableEq, Repr

/-- Modelled from the spec: the text payload carried in a mailbox entry.
The classifier in `inbox.ts` is not among the given sources; following the
spec (4.2), a payload is either raw non-JSON text or a JSON object,
represented structurally as a field list instead of a serialized string. -/
inductive TextPayload where
  | raw (s : String)
  | obj (fields : List (String × JVal))
deriving DecidableEq, Repr

/-- Read a string-valued field of a JSON object. -/
def getStr (fs : List (String × JVal)) (k : String) : Option String :=
  match fs.lookup k with
  | some (JVal.str s) => some s
  | _ => none

/-- Read a boolean-valued field of a JSON object. -/
def getBool (fs : List (String × JVal)) (k : String) : Option Bool :=
  match fs.lookup k with
  | some (JVal.toggle b) => some b
  | _ => none

/-- Classified protocol message: the tagged variants listed in spec sections
3 and 6, with the fields the controller code reads from each. -/
inductive ParsedMessage where
  | idleNote
  | shutdownReq (requestId : String)
  | shutdownOk (requestId : String)
  | planReq (requestId : String) (planContent : Option String)
  | planResp (requestId : String) (approved : Bool) (feedback : Option String)
  | permReq (requestId : String) (toolName : String) (descr : String)
  | permResp (requestId : String) (approved : Bool)
  | taskAssign (taskId : String) (subject : String) (descr : String) (assignedBy : String)
  | plainText (s : String)
deriving DecidableEq, Repr

/-- The `type` discriminator string of a classified message, as compared by
the controller against `PROTOCOL_ONLY_TYPES` (controller source, lines 24-29). -/
def typeName : ParsedMessage → String
  | .idleNote => "idle_notification"
  | .shutdownReq _ => "shutdown_request"
  | .shutdownOk _ => "shutdown_approved"
  | .planReq _ _ => "plan_approval_request"
  | .planResp _ _ _ => "plan_approval_response"
  | .permReq _ _ _ => "permission_request"
  | .permResp _ _ => "permission_response"
  | .taskAssign _ _ _ _ => "task_assignment"
  | .plainText _ => "plain_text"

/-- Modelled from the spec: the message classifier (4.2).  A raw payload is
plain text; a JSON object with a recognized `type` discriminator and the
required fields yields the typed variant; anything else degrades to plain
text.  In this structural model the original text of a malformed object is
not reconstructed, so the degraded variant carries the empty string; no
claim depends on the carried text of a degraded message. -/
def classify : TextPayload → ParsedMessage
  | .raw s => .plainText s
  | .obj fs =>
    match getStr fs "type" with
    | some "idle_notification" => .idleNote
    | some "shutdown_request" =>
      match getStr fs "requestId" with
      | some rid => .shutdownReq rid
      | none => .plainText ""
    | some "shutdown_approved" =>
      match getStr fs "requestId" with
      | some rid => .shutdownOk rid
      | none => .plainText ""
    | some "plan_approval_request" =>
      match getStr fs "requestId" with
      | some rid => .planReq rid (getStr fs "planContent")
      | none => .plainText ""
    | some "plan_approval_response" =>
      match getStr fs "requestId", getBool fs "approved" with
      | some rid, some ap => .planResp rid ap (getStr fs "feedback")
      | _, _ => .plainText ""
    | some "permission_request" =>
      match getStr fs "requestId", getStr fs "toolName", getStr fs "description" with
      | some rid, some tn, some d => .permReq rid tn d
      | _, _, _ => .plainText ""
    | some "permission_response" =>
      match getStr fs "requestId", getBool fs "approved" with
      | some rid, some ap => .permResp rid ap
      | _, _ => .plainText ""
    | some "task_assignment" =>
      match getStr fs "taskId", getStr fs "subject", getStr fs "description", getStr fs "assignedBy" with
      | some tid, some s, some d, some ab => .taskAssign tid s d ab
      | _, _, _, _ => .plainText ""
    | _ => .plainText ""

/-- Protocol-only message types, filtered out of receive and receiveAny
(controller source, lines 24-29). -/
def PROTOCOL_ONLY_TYPES : List String :=
  ["shutdown_approved", "plan_approval_response", "permission_response"]

/-- Membership test mirroring `PROTOCOL_ONLY_TYPES.has(parsed.type)`. -/
def isProtocolOnly (p : ParsedMessage) : Bool :=
  PROTOCOL_ONLY_TYPES.contains (typeName p)

/-- Raw mailbox envelope, spec section 3: from, text, timestamp, summary. -/
structure InboxMessage where
  fromName : String
  text : TextPayload
  timestamp : String
  summary : Option String := none
deriving DecidableEq, Repr

/-- The filter predicate of the `meaningful` selection in `receive` and
`receiveAny`: not an idle notification and not protocol-only. -/
def contentPred (m : InboxMessage) : Bool :=
  let p := classify m.text
  typeName p != "idle_notification" && !(isProtocolOnly p)

/-- The filter predicate of the `idles` fallback in `receive`. -/
def idlePred (m : InboxMessage) : Bool :=
  typeName (classify m.text) == "idle_notification"

/-- One poll-loop iteration of `receive` (controller source, lines 275-307):
filter the unread batch to the given sender; prefer content messages (not
idle, not protocol-only); otherwise fall back to idle notifications; return
none when neither is present so the loop keeps polling. -/
def selectMeaningful (agentName : String) (all : Bool)
    (unread : List InboxMessage) : Option (List InboxMessage) :=
  let fromAgent := unread.filter (fun m => m.fromName == agentName)
  if fromAgent.length > 0 then
    let meaningful := fromAgent.filter contentPred
    if meaningful.length > 0 then
      some (if all then meaningful else meaningful.take 1)
    else
      let idles := fromAgent.filter idlePred
      if idles.length > 0 then some (if all then idles else idles.take 1)
      else none
  else none

/-- One poll-loop iteration of `receiveAny` (controller source, lines
322-337): first unread message that is neither idle nor protocol-only. -/
def selectAny (unread : List InboxMessage) : Option InboxMessage :=
  (unread.filter contentPred).head?

/-- The timeout error text thrown by `receive` (controller source, lines
309-311). -/
def receiveTimeoutMsg (agentName : String) (timeout : Nat) : String :=
  "Timeout (" ++ toString timeout ++ "ms) waiting for message from \"" ++ agentName ++ "\""

/-- The bounded polling loop of `receive`.  Wall-clock time is replaced by
the schedule of poll results: each list entry is the unread batch one loop
iteration reads, and exhausting the schedule is the deadline expiring. -/
def receiveRun (agentName : String) (timeout : Nat) (all : Bool) :
    List (List InboxMessage) → Except String (List InboxMessage)
  | [] => .error (receiveTimeoutMsg agentName timeout)
  | batch :: rest =>
    match selectMeaningful agentName all batch with
    | some msgs => .ok msgs
    | none => receiveRun agentName timeout all rest

/-- Substring containment, used to state that an error message names a value. -/
def strContains (s sub : String) : Prop :=
  ∃ pre post, s = pre ++ sub ++ post

/-! ## Decimal string identifiers

The task ledger addresses records by a numeric string id.  The encoder below
renders a natural number in decimal; its injectivity (proved through a
decoder round trip) is what makes "identifiers are never reused" a statement
about the strings the ledger hands out. -/

/-- The character of one decimal digit. -/
def decDigitChar (d : Nat) : Char := Char.ofNat (48 + d)

/-- Decimal digits (least significant first), structurally recursive on a
fuel argument so that concrete values compute by reduction. -/
def decDigitsRevFuel : Nat → Nat → List Nat
  | 0, _ => []
  | fuel + 1, n => if n = 0 then [] else (n % 10) :: decDigitsRevFuel fuel (n / 10)

/-- Decimal digits of a natural number, least significant first. -/
def decDigitsRev (n : Nat) : List Nat := decDigitsRevFuel n n

/-- Recombine least-significant-first decimal digits. -/
def decOfDigitsRev : List Nat → Nat
  | [] => 0
  | d :: ds => d + 10 * decOfDigitsRev ds

/-- Decimal rendering of a natural number. -/
def natToDecStr (n : Nat) : String :=
  if n = 0 then "0" else String.mk (((decDigitsRev n).map decDigitChar).reverse)

theorem decOf_decDigitsRevFuel : ∀ fuel n : Nat, n ≤ fuel →
    decOfDigitsRev (decDigitsRevFuel fuel n) = n := by
  intro fuel
  induction fuel with
  | zero =>
    intro n h
    have : n = 0 := by omega
    subst this
    simp [decDigitsRevFuel, decOfDigitsRev]
  | succ f ih =>
    intro n h
    by_cases hn : n = 0
    · simp [decDigitsRevFuel, hn, decOfDigitsRev]
    · simp only [decDigitsRevFuel, hn, if_false, decOfDigitsRev]
      have hd : n / 10 < n := Nat.div_lt_self (Nat.pos_of_ne_zero hn) (by decide)
      rw [ih (n / 10) (by omega)]
      omega

theorem decOf_decDigitsRev (n : Nat) : decOfDigitsRev (decDigitsRev n) = n :=
  decOf_decDigitsRevFuel n n (Nat.le_refl n)

theorem decDigitsRevFuel_lt_ten : ∀ fuel n : Nat, ∀ d ∈ decDigitsRevFuel fuel n, d < 10 := by
  intro fuel
  induction fuel with
  | zero => intro n d hd; simp [decDigitsRevFuel] at hd
  | succ f ih =>
    intro n d hd
    by_cases hn : n = 0
    · simp [decDigitsRevFuel, hn] at hd
    · simp only [decDigitsRevFuel, hn, if_false, List.mem_cons] at hd
      rcases hd with rfl | hd
      · exact Nat.mod_lt _ (by decide)
      · exact ih (n / 10) d hd

theorem decDigitsRev_lt_ten (n : Nat) : ∀ d ∈ decDigitsRev n, d < 10 :=
  decDigitsRevFuel_lt_ten n n

theorem decDigitChar_inj_fin : ∀ a b : Fin 10,
    decDigitChar a.val = decDigitChar b.val → a = b := by decide

theorem decDigitChar_inj {a b : Nat} (ha : a < 10) (hb : b < 10)
    (h : decDigitChar a = decDigitChar b) : a = b := by
  have := decDigitChar_inj_fin ⟨a, ha⟩ ⟨b, hb⟩ h
  simpa using congrArg Fin.val this

theorem map_decDigitChar_inj : ∀ (xs ys : List Nat),
    (∀ d ∈ xs, d < 10) → (∀ d ∈ ys, d < 10) →
    xs.map decDigitChar = ys.map decDigitChar → xs = ys := by
  intro xs
  induction xs with
  | nil => intro ys _ _ h; cases ys <;> simp_all
  | cons x xs ih =>
    intro ys hx hy h
    cases ys with
    | nil => simp at h
    | cons y ys =>
      simp only [List.map_cons, List.cons.injEq] at h
      have hxy : x = y :=
        decDigitChar_inj (hx x (by simp)) (hy y (by simp)) h.1
      have := ih ys (fun d hd => hx d (by simp [hd])) (fun d hd => hy d (by simp [hd])) h.2
      simp [hxy, this]

theorem natToDecStr_zero_case (n : Nat) (hn : n ≠ 0)
    (h : String.mk (((decDigitsRev n).map decDigitChar).reverse) = "0") : False := by
  have hlist : ((decDigitsRev n).map decDigitChar).reverse = ['0'] := by
    have := congrArg String.data h
    simpa using this
  have hlist2 : (decDigitsRev n).map decDigitChar = ['0'] := by
    have := congrArg List.reverse hlist
    simpa using this
  have h0 : decDigitsRev n = [0] := by
    apply map_decDigitChar_inj _ _ (decDigitsRev_lt_ten n) (by simp)
    simpa [decDigitChar] using hlist2
  have := decOf_decDigitsRev n
  rw [h0] at this
  simp [decOfDigitsRev] at this
  exact hn this.symm

theorem natToDecStr_injective : Function.Injective natToDecStr := by
  intro m n h
  unfold natToDecStr at h
  by_cases hm : m = 0 <;> by_cases hn : n = 0
  · omega
  · exact absurd (by simpa [hm, hn] using h.symm) (fun hh => natToDecStr_zero_case n hn hh)
  · exact absurd (by simpa [hm, hn] using h) (fun hh => natToDecStr_zero_case m hm hh)
  · simp only [hm, hn, if_false] at h
    have hlist : ((decDigitsRev m).map decDigitChar).reverse =
        ((decDigitsRev n).map decDigitChar).reverse := by
      have := congrArg String.data h
      simpa using this
    have hrev := congrArg List.reverse hlist
    simp only [List.reverse_reverse] at hrev
    have h2 := map_decDigitChar_inj _ _ (decDigitsRev_lt_ten m) (decDigitsRev_lt_ten n) hrev
    have ha := decOf_decDigitsRev m
    have hb := decOf_decDigitsRev n
    rw [h2] at ha
    omega

/-! ## Task ledger -/

/-- Task status, spec section 3. -/
inductive TaskStatus where
  | pending
  | in_progress
  | completed
deriving DecidableEq, Repr

/-- A persisted task record, spec section 3: numeric string id, subject,
description, status, optional owner, dependency edges. -/
structure TaskFile where
  id : String
  subject : String
  description : String
  status : TaskStatus
  owner : Option String := none
  blocks : List String := []
  blockedBy : List String := []
deriving DecidableEq, Repr

/-- Input to task creation (controller `createTask` argument shape). -/
structure CreateTaskInput where
  subject : String
  description : String
  owner : Option String := none
  status : Option TaskStatus := none
  blocks : List String := []
  blockedBy : List String := []
deriving DecidableEq, Repr

/-- Fields of a task update (REST `UpdateTaskBody`). -/
structure UpdateTaskInput where
  subject : Option String := none
  description : Option String := none
  owner : Option String := none
  status : Option TaskStatus := none
deriving DecidableEq, Repr

/-- Modelled from the spec: the Task Ledger state (`task-manager.ts` is not
among the given sources).  Spec sections 3 and 6: one record per task,
addressed by a numeric string id starting at "1" and incrementing per
creation, with ids unique and never reused within a team lifetime; the
monotone counter is the persisted source of fresh ids. -/
structure TaskLedger where
  nextId : Nat
  tasks : List TaskFile
deriving DecidableEq, Repr

/-- The ledger as initialized by `tasks.init()`. -/
def TaskLedger.initial : TaskLedger := ⟨1, []⟩

/-- Modelled from the spec: task creation assigns the decimal string of the
monotone counter, appends one record, and bumps the counter. -/
def TaskLedger.create (l : TaskLedger) (inp : CreateTaskInput) : String × TaskLedger :=
  let id := natToDecStr l.nextId
  (id, ⟨l.nextId + 1,
    l.tasks ++ [{ id := id, subject := inp.subject, description := inp.description,
                  status := inp.status.getD .pending, owner := inp.owner,
                  blocks := inp.blocks, blockedBy := inp.blockedBy }]⟩)

/-- Modelled from the spec: reading a task record by id. -/
def TaskLedger.get (l : TaskLedger) (id : String) : Option TaskFile :=
  l.tasks.find? (fun t => t.id == id)

/-- Apply an update patch to a record. -/
def applyPatch (t : TaskFile) (p : UpdateTaskInput) : TaskFile :=
  { t with subject := p.subject.getD t.subject,
           description := p.description.getD t.description,
           owner := (p.owner.map some).getD t.owner,
           status := p.status.getD t.status }

/-- Modelled from the spec: updating a task record in place; a missing id is
a not-found failure. -/
def TaskLedger.update (l : TaskLedger) (id : String) (p : UpdateTaskInput) :
    Except String (TaskFile × TaskLedger) :=
  match l.get id with
  | none => .error ("Task \"" ++ id ++ "\" not found")
  | some t =>
    let t2 := applyPatch t p
    .ok (t2, ⟨l.nextId, l.tasks.map (fun u => if u.id == id then t2 else u)⟩)

/-- Modelled from the spec: deleting a task removes its record only; the id
counter is untouched, so ids are never reused. -/
def TaskLedger.delete (l : TaskLedger) (id : String) : TaskLedger :=
  ⟨l.nextId, l.tasks.filter (fun t => t.id != id)⟩

/-- Modelled from the spec: listing enumerates the records of the ledger. -/
def TaskLedger.list (l : TaskLedger) : List TaskFile := l.tasks

/-- One ledger operation of a trace interleaving creates with other task
operations. -/
inductive LedgerOp where
  | createOp (inp : CreateTaskInput)
  | updateOp (id : String) (p : UpdateTaskInput)
  | deleteOp (id : String)
deriving DecidableEq, Repr

/-- Run a trace of ledger operations, collecting the ids handed out by the
create operations in order. -/
def runOps : TaskLedger → List LedgerOp → TaskLedger × List String
  | l, [] => (l, [])
  | l, .createOp inp :: rest =>
    let r := l.create inp
    let s := runOps r.2 rest
    (s.1, r.1 :: s.2)
  | l, .updateOp id p :: rest =>
    match l.update id p with
    | .ok (_, l2) => runOps l2 rest
    | .error _ => runOps l rest
  | l, .deleteOp id :: rest => runOps (l.delete id) rest

/-- Number of create operations in a trace. -/
def countCreates : List LedgerOp → Nat
  | [] => 0
  | .createOp _ :: rest => countCreates rest + 1
  | .updateOp _ _ :: rest => countCreates rest
  | .deleteOp _ :: rest => countCreates rest

/-- Whether a trace contains a delete operation. -/
def hasDelete : List LedgerOp → Bool
  | [] => false
  | .deleteOp _ :: _ => true
  | _ :: rest => hasDelete rest

theorem update_preserves_shape (l : TaskLedger) (id : String) (p : UpdateTaskInput)
    (t : TaskFile) (l2 : TaskLedger) (h : l.update id p = .ok (t, l2)) :
    l2.nextId = l.nextId ∧ l2.tasks.length = l.tasks.length := by
  unfold TaskLedger.update at h
  cases hg : l.get id with
  | none => rw [hg] at h; exact absurd h (by simp)
  | some t0 =>
    rw [hg] at h
    simp only [Except.ok.injEq, Prod.mk.injEq] at h
    rw [← h.2]
    simp

theorem runOps_ids (l : TaskLedger) (ops : List LedgerOp) :
    (runOps l ops).2 =
      (List.range (countCreates ops)).map (fun i => natToDecStr (l.nextId + i)) := by
  induction ops generalizing l with
  | nil => simp [runOps, countCreates]
  | cons op rest ih =>
    cases op with
    | createOp inp =>
      simp only [runOps, countCreates, TaskLedger.create]
      rw [ih]
      rw [List.range_succ_eq_map]
      simp only [List.map_cons, List.map_map]
      refine List.cons_eq_cons.mpr ⟨by simp, ?_⟩
      apply List.map_congr_left
      intro i _
      simp only [Function.comp_apply, Nat.succ_eq_add_one]
      congr 1
      omega
    | updateOp id p =>
      simp only [runOps, countCreates]
      cases hu : l.update id p with
      | ok r =>
        obtain ⟨t, l2⟩ := r
        have hs := update_preserves_shape l id p t l2 hu
        rw [ih l2, hs.1]
      | error e => exact ih l
    | deleteOp id =>
      simp only [runOps, countCreates, TaskLedger.delete]
      exact ih _

theorem runOps_count (l : TaskLedger) (ops : List LedgerOp) (h : hasDelete ops = false) :
    (runOps l ops).1.tasks.length = l.tasks.length + countCreates ops := by
  induction ops generalizing l with
  | nil => simp [runOps, countCreates]
  | cons op rest ih =>
    cases op with
    | createOp inp =>
      simp only [runOps, countCreates, TaskLedger.create]
      rw [ih _ (by simpa [hasDelete] using h)]
      simp
      omega
    | updateOp id p =>
      simp only [runOps, countCreates]
      cases hu : l.update id p with
      | ok r =>
        obtain ⟨t, l2⟩ := r
        have hs := update_preserves_shape l id p t l2 hu
        rw [ih l2 (by simpa [hasDelete] using h), hs.2]
      | error e => exact ih l (by simpa [hasDelete] using h)
    | deleteOp id => simp [hasDelete] at h

/-! ## Controller -/

/-- Lookup in a string-keyed association list (JS object / Map access). -/
def alistGet {α : Type} : List (String × α) → String → Option α
  | [], _ => none
  | p :: rest, k => if p.1 = k then some p.2 else alistGet rest k

/-- JS `Map.set`: replace the value of an existing key in place, otherwise
append the new binding. -/
def alistSet {α : Type} : List (String × α) → String → α → List (String × α)
  | [], k, v => [(k, v)]
  | p :: rest, k, v => if p.1 = k then (k, v) :: rest else p :: alistSet rest k v

/-- JS `Map.delete`: remove the binding of a key.  Keys are unique in a JS
Map, so removing the binding equals filtering the key out. -/
def alistErase {α : Type} (m : List (String × α)) (k : String) : List (String × α) :=
  m.filter (fun p => p.1 != k)

/-- Environment map: string keys to string values. -/
abbrev EnvMap := List (String × String)

/-- JS object spread of two environment records: every key of the second
record wins; keys only in the first keep their value. -/
def spreadEnv (d o : EnvMap) : EnvMap :=
  d.filter (fun p => (alistGet o p.1).isNone) ++ o

/-- The environment passed to the spawned process (controller source, lines
175-179): merge default env with the per-agent env, per-agent taking
precedence; undefined when both are absent. -/
def mergeSpawnEnv (d : EnvMap) (o : Option EnvMap) : Option EnvMap :=
  if d.length > 0 || o.isSome then some (spreadEnv d (o.getD [])) else none

/-- A registered team member (the fields the embedded operations read). -/
structure TeamMember where
  agentId : String
  name : String
  agentType : String
deriving DecidableEq, Repr

/-- Observable operations the controller requests from the layers beneath
it (registry, ledger, mailbox, process supervisor, poller, event stream). -/
inductive Effect where
  | teamCreate
  | tasksInit
  | pollerStart
  | pollerStop
  | teamDestroy
  | memberAdd (m : TeamMember)
  | memberRemove (name : String)
  | inboxAppend (recipient : String) (msg : InboxMessage)
  | taskGet (id : String)
  | procSpawn (name : String) (env : Option EnvMap)
  | procKill (name : String)
  | emitSpawned (name : String)
deriving DecidableEq, Repr

/-- The controller state (controller source, lines 42-78): team name,
default environment, registry membership, running process names, the task
ledger, and the initialized flag. -/
structure Controller where
  teamName : String
  defaultEnv : EnvMap
  initialized : Bool
  members : List TeamMember
  running : List String
  ledger : TaskLedger
  colorIndex : Nat
deriving DecidableEq, Repr

/-- The error text of `ensureInitialized` (controller source, lines 521-527). -/
def notInitMsg : String := "Controller not initialized. Call init() first."

/-- Guard run at the head of spawnAgent, send, broadcast and createTask. -/
def Controller.ensureInit (c : Controller) : Except String Unit :=
  if c.initialized then .ok () else .error notInitMsg

/-- Controller `init` (controller source, lines 86-97): a no-op returning
the same instance when already initialized; otherwise create the team
namespace, initialize the task ledger, start the poller, and set the flag. -/
def Controller.init (c : Controller) : Controller × List Effect :=
  if c.initialized then (c, [])
  else ({ c with initialized := true, members := [], ledger := TaskLedger.initial },
        [.teamCreate, .tasksInit, .pollerStart])

/-- Controller `shutdown` (controller source, lines 106-148): request
shutdown of every running agent, force-kill the rest, stop the poller,
destroy the team namespace, and clear the initialized flag. -/
def Controller.shutdown (c : Controller) (ts : String) : Controller × List Effect :=
  ({ c with initialized := false, running := [] },
    (c.running.map (fun n =>
      Effect.inboxAppend n
        { fromName := "controller",
          text := .obj [("type", .str "shutdown_request"),
                        ("requestId", .str ("shutdown-" ++ ts ++ "@" ++ n)),
                        ("from", .str "controller"),
                        ("reason", .str "Controller shutdown requested"),
                        ("timestamp", .str ts)],
          timestamp := ts }))
     ++ (c.running.map Effect.procKill) ++ [.pollerStop, .teamDestroy])

/-- Controller `send` (controller source, lines 212-229): requires the
initialized flag, then appends one envelope from "controller" to the named
agent mailbox. -/
def Controller.send (c : Controller) (agentName : String) (text : TextPayload)
    (summary : Option String) (ts : String) :
    Except String (Controller × List Effect) := do
  let _ ← c.ensureInit
  .ok (c, [.inboxAppend agentName
    { fromName := "controller", text := text, timestamp := ts, summary := summary }])

/-- Controller `broadcast` (controller source, lines 249-256): requires the
initialized flag, then sends to every non-controller member. -/
def Controller.broadcast (c : Controller) (text : TextPayload)
    (summary : Option String) (ts : String) :
    Except String (Controller × List Effect) := do
  let _ ← c.ensureInit
  let agents := c.members.filter (fun m => m.name != "controller")
  .ok (c, agents.map (fun a => .inboxAppend a.name
    { fromName := "controller", text := text, timestamp := ts, summary := summary }))

/-- Options accepted by `spawnAgent`. -/
structure SpawnAgentOptions where
  name : String
  agentType : Option String := none
  model : Option String := none
  cwd : Option String := none
  env : Option EnvMap := none
deriving DecidableEq, Repr

/-- Agent color palette (controller source, lines 31-40). -/
def AGENT_COLORS : List String :=
  ["#00FF00", "#00BFFF", "#FF6347", "#FFD700", "#DA70D6", "#40E0D0", "#FF69B4", "#7B68EE"]

/-- Controller `spawnAgent` (controller source, lines 155-205): requires the
initialized flag, registers the member, merges the environments, spawns the
process, and emits the spawned event. -/
def Controller.spawnAgent (c : Controller) (opts : SpawnAgentOptions) :
    Except String (String × Controller × List Effect) := do
  let _ ← c.ensureInit
  let agentId := opts.name ++ "@" ++ c.teamName
  let member : TeamMember :=
    { agentId := agentId, name := opts.name,
      agentType := opts.agentType.getD "general-purpose" }
  let env := mergeSpawnEnv c.defaultEnv opts.env
  .ok (opts.name,
    { c with members := c.members ++ [member],
             running := c.running ++ [opts.name],
             colorIndex := c.colorIndex + 1 },
    [.memberAdd member, .procSpawn opts.name env, .emitSpawned opts.name])

/-- The `task_assignment` envelope payload built by `createTask` and
`assignTask` (controller source, lines 360-367). -/
def taskAssignmentPayload (taskId subject description ts : String) : TextPayload :=
  .obj [("type", .str "task_assignment"),
        ("taskId", .str taskId),
        ("subject", .str subject),
        ("description", .str description),
        ("assignedBy", .str "controller"),
        ("timestamp", .str ts)]

/-- Controller `createTask` (controller source, lines 347-372): requires the
initialized flag, creates the ledger record, and, when an owner is set,
reads the stored record back and sends it one `task_assignment` envelope. -/
def Controller.createTask (c : Controller) (inp : CreateTaskInput) (ts : String) :
    Except String (String × Controller × List Effect) := do
  let _ ← c.ensureInit
  let r := c.ledger.create inp
  let c1 := { c with ledger := r.2 }
  match inp.owner with
  | none => .ok (r.1, c1, [])
  | some w =>
    match r.2.get r.1 with
    | none => .error ("Task \"" ++ r.1 ++ "\" not found")
    | some fullTask => do
      let s ← c1.send w (taskAssignmentPayload r.1 fullTask.subject fullTask.description ts) none ts
      .ok (r.1, s.1, s.2)

/-- The `plan_approval_response` envelope payload (controller source, lines
402-409); JSON.stringify drops an undefined feedback field. -/
def planApprovalPayload (requestId : String) (approve : Bool)
    (feedback : Option String) (ts : String) : TextPayload :=
  .obj ([("type", .str "plan_approval_response"),
         ("requestId", .str requestId),
         ("from", .str "controller"),
         ("approved", .toggle approve)]
        ++ (match feedback with
            | some f => [("feedback", JVal.str f)]
            | none => [])
        ++ [("timestamp", .str ts)])

/-- The `permission_response` envelope payload (controller source, lines
422-428). -/
def permissionResponsePayload (requestId : String) (approve : Bool) (ts : String) :
    TextPayload :=
  .obj [("type", .str "permission_response"),
        ("requestId", .str requestId),
        ("from", .str "controller"),
        ("approved", .toggle approve),
        ("timestamp", .str ts)]

/-- Controller `sendPlanApproval` (controller source, lines 396-411). -/
def Controller.sendPlanApproval (c : Controller) (agentName requestId : String)
    (approve : Bool) (feedback : Option String) (ts : String) :
    Except String (Controller × List Effect) :=
  c.send agentName (planApprovalPayload requestId approve feedback ts) none ts

/-- Controller `sendPermissionResponse` (controller source, lines 417-430). -/
def Controller.sendPermissionResponse (c : Controller) (agentName requestId : String)
    (approve : Bool) (ts : String) : Except String (Controller × List Effect) :=
  c.send agentName (permissionResponsePayload requestId approve ts) none ts

/-- Controller `killAgent` (controller source, lines 454-457): kill the
process and remove the member; no initialized-flag guard. -/
def Controller.killAgent (c : Controller) (name : String) : Controller × List Effect :=
  ({ c with running := c.running.filter (fun n => n != name),
            members := c.members.filter (fun m => m.name != name) },
   [.procKill name, .memberRemove name])

/-! ## Action tracker -/

/-- Kind of a pending approval. -/
inductive ApprovalKind where
  | plan
  | permission
deriving DecidableEq, Repr

/-- A pending approval snapshot entry (action-tracker source, lines 7-18).
The `kind` field embeds the `type` discriminator of the source. -/
structure PendingApproval where
  kind : ApprovalKind
  agent : String
  requestId : String
  timestamp : String
  action : String
  planContent : Option String := none
  toolName : Option String := none
  description : Option String := none
deriving DecidableEq, Repr

/-- An idle-agent snapshot entry (action-tracker source, lines 20-25). -/
structure IdleAgent where
  name : String
  agentType : String
  idleSince : String
  action : String
deriving DecidableEq, Repr

/-- The in-memory state of the ActionTracker (action-tracker source, lines
33-38): approvals keyed by requestId, idle agents keyed by name, agent
types keyed by name. -/
structure TrackerState where
  approvals : List (String × PendingApproval)
  idles : List (String × IdleAgent)
  agentTypes : List (String × String)
deriving DecidableEq, Repr

/-- A tracker with nothing recorded. -/
def TrackerState.empty : TrackerState := ⟨[], [], []⟩

/-- The `plan:approval_request` listener (action-tracker source, lines 45-54). -/
def TrackerState.onPlan (t : TrackerState) (agent requestId timestamp : String)
    (planContent : Option String) : TrackerState :=
  let pa : PendingApproval :=
    { kind := .plan, agent := agent, requestId := requestId, timestamp := timestamp,
      planContent := planContent,
      action := "POST /agents/" ++ agent ++ "/approve-plan" }
  { t with approvals := alistSet t.approvals requestId pa }

/-- The `permission:request` listener (action-tracker source, lines 56-66). -/
def TrackerState.onPermission (t : TrackerState) (agent requestId timestamp toolName descr : String) :
    TrackerState :=
  let pa : PendingApproval :=
    { kind := .permission, agent := agent, requestId := requestId, timestamp := timestamp,
      toolName := some toolName, description := some descr,
      action := "POST /agents/" ++ agent ++ "/approve-permission" }
  { t with approvals := alistSet t.approvals requestId pa }

/-- The `idle` listener (action-tracker source, lines 68-75). -/
def TrackerState.onIdle (t : TrackerState) (agent now : String) : TrackerState :=
  let ia : IdleAgent :=
    { name := agent, agentType := (alistGet t.agentTypes agent).getD "unknown",
      idleSince := now, action := "POST /agents/" ++ agent ++ "/messages" }
  { t with idles := alistSet t.idles agent ia }

/-- The `message` listener (action-tracker source, lines 77-79). -/
def TrackerState.onMessage (t : TrackerState) (agent : String) : TrackerState :=
  { t with idles := alistErase t.idles agent }

/-- The `agent:spawned` listener (action-tracker source, lines 81-83). -/
def TrackerState.onSpawned (t : TrackerState) (agent : String) : TrackerState :=
  { t with idles := alistErase t.idles agent }

/-- The `agent:exited` listener (action-tracker source, lines 85-93):
drop the idle entry of the agent and purge every pending approval whose
`agent` field is that agent. -/
def TrackerState.onExited (t : TrackerState) (agent : String) : TrackerState :=
  { t with idles := alistErase t.idles agent,
           approvals := t.approvals.filter (fun p => p.2.agent != agent) }

/-- `resolveApproval` (action-tracker source, lines 128-130). -/
def TrackerState.resolveApproval (t : TrackerState) (requestId : String) : TrackerState :=
  { t with approvals := alistErase t.approvals requestId }

/-- `getPendingApprovals` (action-tracker source, lines 132-134): the values
of the approvals map in order. -/
def TrackerState.getPendingApprovals (t : TrackerState) : List PendingApproval :=
  t.approvals.map (fun p => p.2)

/-! ## REST routes -/

/-- The safe-name validation regex of the route layer
(`^[a-zA-Z0-9_-]{1,64}$`, routes source, line 18). -/
def safeNameChar (ch : Char) : Bool :=
  ch.isAlpha || ch.isDigit || ch == '-' || ch == '_'

/-- Whether a string passes `SAFE_NAME_RE`. -/
def safeName (s : String) : Bool :=
  decide (1 ≤ s.length) && decide (s.length ≤ 64) && s.data.all safeNameChar

/-- `validateName` (routes source, lines 20-26): throw a ValidationError
when the value fails the safe-name test. -/
def validateName (value field : String) : Except String Unit :=
  if safeName value then .ok ()
  else .error (field ++ " must be 1-64 alphanumeric characters, hyphens, or underscores")

/-- The error thrown by `getController` when no session is active (routes
source, lines 48-55). -/
def noSessionMsg : String := "No active session. Call POST /session/init first."

/-- The REST state a route handler sees: the optional controller and the
tracker (routes source, `ApiState`). -/
structure ApiStateM where
  controller : Option Controller
  tracker : TrackerState
deriving DecidableEq, Repr

/-- Outcome of one route invocation: a JSON response with a status code and
the effects performed, an explicit 400 body, or a thrown error handed to the
global error handler (`createApi.onError`: 400 for ValidationError names,
500 otherwise). -/
inductive Handled where
  | resp (status : Nat) (st : ApiStateM) (effects : List Effect)
  | err400 (msg : String) (st : ApiStateM)
  | thrownValidation (msg : String) (st : ApiStateM)
  | thrown (msg : String) (st : ApiStateM)
deriving DecidableEq, Repr

/-- Body of `POST /agents/:name/messages`. -/
structure SendMessageBody where
  message : Option String
  summary : Option String := none
deriving DecidableEq, Repr

/-- `POST /agents/:name/messages` (routes source, lines 263-272): resolve
the controller, require a message, and send — the `:name` path parameter is
not validated. -/
def postAgentMessages (st : ApiStateM) (name : String) (body : SendMessageBody)
    (ts : String) : Handled :=
  match st.controller with
  | none => .thrown noSessionMsg st
  | some ctrl =>
    match body.message with
    | none => .err400 "message is required" st
    | some msg =>
      match ctrl.send name (.raw msg) body.summary ts with
      | .error e => .thrown e st
      | .ok r => .resp 200 ({ st with controller := some r.1 }) r.2

/-- `POST /agents/:name/kill` (routes source, lines 274-279): resolve the
controller and kill — the `:name` path parameter is not validated. -/
def postAgentKill (st : ApiStateM) (name : String) : Handled :=
  match st.controller with
  | none => .thrown noSessionMsg st
  | some ctrl =>
    let r := ctrl.killAgent name
    .resp 200 ({ st with controller := some r.1 }) r.2

/-- Body of the approve-plan route. -/
structure ApprovePlanBodyM where
  requestId : Option String
  approve : Option Bool := none
  feedback : Option String := none
deriving DecidableEq, Repr

/-- Body of the approve-permission route. -/
structure ApprovePermissionBodyM where
  requestId : Option String
  approve : Option Bool := none
deriving DecidableEq, Repr

/-- `POST /agents/:name/approve-plan` (routes source, lines 288-303):
require a requestId, send the plan approval (approve defaulting to true),
then resolve the tracked approval — the `:name` path parameter is not
validated. -/
def approvePlanRoute (st : ApiStateM) (name : String) (body : ApprovePlanBodyM)
    (ts : String) : Handled :=
  match st.controller with
  | none => .thrown noSessionMsg st
  | some ctrl =>
    match body.requestId with
    | none => .err400 "requestId is required" st
    | some rid =>
      match ctrl.sendPlanApproval name rid (body.approve.getD true) body.feedback ts with
      | .error e => .thrown e st
      | .ok r =>
        .resp 200 ({ controller := some r.1, tracker := st.tracker.resolveApproval rid }) r.2

/-- `POST /agents/:name/approve-permission` (routes source, lines 305-319). -/
def approvePermissionRoute (st : ApiStateM) (name : String) (body : ApprovePermissionBodyM)
    (ts : String) : Handled :=
  match st.controller with
  | none => .thrown noSessionMsg st
  | some ctrl =>
    match body.requestId with
    | none => .err400 "requestId is required" st
    | some rid =>
      match ctrl.sendPermissionResponse name rid (body.approve.getD true) ts with
      | .error e => .thrown e st
      | .ok r =>
        .resp 200 ({ controller := some r.1, tracker := st.tracker.resolveApproval rid }) r.2

/-- `GET /tasks/:id` (routes source, lines 352-360): resolve the controller
and read the task record from the ledger (a filesystem read in the real
layer), answering 404 when absent — the `:id` path parameter is not
validated. -/
def getTaskRoute (st : ApiStateM) (id : String) : Handled :=
  match st.controller with
  | none => .thrown noSessionMsg st
  | some ctrl =>
    match ctrl.ledger.get id with
    | none => .resp 404 st [.taskGet id]
    | some _ => .resp 200 st [.taskGet id]

/-! ## Association list lemmas -/

theorem alistGet_cons {α : Type} (p : String × α) (rest : List (String × α)) (k : String) :
    alistGet (p :: rest) k = if p.1 = k then some p.2 else alistGet rest k := rfl

theorem alistGet_erase_self {α : Type} (m : List (String × α)) (k : String) :
    alistGet (alistErase m k) k = none := by
  induction m with
  | nil => simp [alistErase, alistGet]
  | cons p rest ih =>
    unfold alistErase at *
    rw [List.filter_cons]
    by_cases h : p.1 = k
    · have : (p.1 != k) = false := by simp [h]
      rw [this]
      simpa using ih
    · have : (p.1 != k) = true := by simp [h]
      rw [this]
      simpa [alistGet_cons, h] using ih

theorem alistGet_erase_ne {α : Type} (m : List (String × α)) (k n : String)
    (h : n ≠ k) : alistGet (alistErase m k) n = alistGet m n := by
  induction m with
  | nil => simp [alistErase, alistGet]
  | cons p rest ih =>
    unfold alistErase at *
    rw [List.filter_cons]
    by_cases hp : p.1 = k
    · have hb : (p.1 != k) = false := by simp [hp]
      have hn : p.1 ≠ n := fun hh => h (by rw [← hh, hp])
      rw [hb]
      simp only [Bool.false_eq_true, if_false, alistGet_cons, hn, if_neg hn]
      exact ih
    · have hb : (p.1 != k) = true := by simp [hp]
      rw [hb]
      simp only [if_true, alistGet_cons]
      by_cases hn : p.1 = n
      · rw [if_pos hn, if_pos hn]
      · rw [if_neg hn, if_neg hn]
        exact ih

theorem alistGet_filter_keyless (d : EnvMap) (o : EnvMap) (k : String)
    (h : alistGet o k ≠ none) :
    alistGet (d.filter (fun p => (alistGet o p.1).isNone)) k = none := by
  induction d with
  | nil => simp [alistGet]
  | cons p rest ih =>
    rw [List.filter_cons]
    by_cases hp : (alistGet o p.1).isNone
    · by_cases hk : p.1 = k
      · exfalso
        rw [hk] at hp
        exact h (Option.isNone_iff_eq_none.mp hp)
      · rw [if_pos (by simpa using hp)]
        rw [alistGet_cons, if_neg hk]
        exact ih
    · rw [if_neg (by simpa using hp)]
      exact ih

theorem alistGet_append_left {α : Type} (l₁ l₂ : List (String × α)) (k : String) (v : α)
    (h : alistGet l₁ k = some v) : alistGet (l₁ ++ l₂) k = some v := by
  induction l₁ with
  | nil => simp [alistGet] at h
  | cons p rest ih =>
    rw [List.cons_append, alistGet_cons]
    rw [alistGet_cons] at h
    by_cases hp : p.1 = k
    · rw [if_pos hp] at h ⊢
      exact h
    · rw [if_neg hp] at h ⊢
      exact ih h

theorem alistGet_append_right {α : Type} (l₁ l₂ : List (String × α)) (k : String)
    (h : alistGet l₁ k = none) : alistGet (l₁ ++ l₂) k = alistGet l₂ k := by
  induction l₁ with
  | nil => simp [alistGet]
  | cons p rest ih =>
    rw [List.cons_append, alistGet_cons]
    rw [alistGet_cons] at h
    by_cases hp : p.1 = k
    · rw [if_pos hp] at h
      exact absurd h (by simp)
    · rw [if_neg hp] at h ⊢
      exact ih h

/-! ## Claim theorems -/

/-- C7: `init()` is idempotent — calling it again on the controller returned
by a first call performs no operation (no namespace creation, no ledger
reinit, no poller start) and returns the same controller instance. -/
theorem init_idempotent (c : Controller) :
    Controller.init (Controller.init c).1 = ((Controller.init c).1, []) := by
  unfold Controller.init
  by_cases h : c.initialized <;> simp [h]

/-- C9: spawnAgent, send, broadcast and createTask on a controller whose
initialized flag is not set — before `init()`, or on the state returned by
`shutdown()`, which clears the flag — fail with the `ensureInitialized`
error; the failing result carries no successor state and no effects, so no
registry, mailbox or ledger mutation is requested. -/
theorem ops_require_init (c c2 : Controller) (h : c.initialized = false)
    (opts : SpawnAgentOptions) (name text ts : String) (summary : Option String)
    (inp : CreateTaskInput) :
    Controller.spawnAgent c opts = .error notInitMsg ∧
    Controller.send c name (.raw text) summary ts = .error notInitMsg ∧
    Controller.broadcast c (.raw text) summary ts = .error notInitMsg ∧
    Controller.createTask c inp ts = .error notInitMsg ∧
    ((Controller.shutdown c2 ts).1).initialized = false ∧
    Controller.send (Controller.shutdown c2 ts).1 name (.raw text) summary ts =
      .error notInitMsg := by
  refine ⟨?_, ?_, ?_, ?_, ?_, ?_⟩ <;>
    simp [Controller.spawnAgent, Controller.send, Controller.broadcast,
          Controller.createTask, Controller.shutdown, Controller.ensureInit, h,
          Bind.bind, Except.bind]

/-- Witness for C9 at a concrete uninitialized controller. -/
def ctrlUninit : Controller :=
  { teamName := "team1", defaultEnv := [], initialized := false, members := [],
    running := [], ledger := TaskLedger.initial, colorIndex := 0 }

theorem ops_require_init_witness :
    Controller.send ctrlUninit "w1" (.raw "hi") none "t0" = .error notInitMsg ∧
    Controller.createTask ctrlUninit { subject := "s", description := "d" } "t0" =
      .error notInitMsg :=
  have h := ops_require_init ctrlUninit ctrlUninit (by decide)
    { name := "w1" } "w1" "hi" "t0" none { subject := "s", description := "d" }
  ⟨h.2.1, h.2.2.2.1⟩

/-- C8: the environment passed by `spawnAgent` to the process spawn is the
merge of the controller-wide default env with the per-spawn env: every key
present in the per-spawn env ends up with the per-spawn value (so the
per-spawn value wins on collision), and every key present only in the
defaults keeps its default value. -/
theorem spawn_env_merge (c : Controller) (opts : SpawnAgentOptions)
    (hinit : c.initialized = true) (k v : String) :
    (∃ c1 effs, Controller.spawnAgent c opts = .ok (opts.name, c1, effs) ∧
      Effect.procSpawn opts.name (mergeSpawnEnv c.defaultEnv opts.env) ∈ effs) ∧
    (∀ o, opts.env = some o → alistGet o k = some v →
      ∃ m, mergeSpawnEnv c.defaultEnv opts.env = some m ∧ alistGet m k = some v) ∧
    (∀ o, opts.env = some o → alistGet o k = none → alistGet c.defaultEnv k = some v →
      ∃ m, mergeSpawnEnv c.defaultEnv opts.env = some m ∧ alistGet m k = some v) ∧
    (opts.env = none → alistGet c.defaultEnv k = some v →
      ∃ m, mergeSpawnEnv c.defaultEnv opts.env = some m ∧ alistGet m k = some v) := by
  refine ⟨?_, ?_, ?_, ?_⟩
  · refine ⟨{ c with
        members := c.members ++ [{ agentId := opts.name ++ "@" ++ c.teamName,
                                   name := opts.name,
                                   agentType := opts.agentType.getD "general-purpose" }],
        running := c.running ++ [opts.name],
        colorIndex := c.colorIndex + 1 },
      [Effect.memberAdd { agentId := opts.name ++ "@" ++ c.teamName, name := opts.name,
                          agentType := opts.agentType.getD "general-purpose" },
       Effect.procSpawn opts.name (mergeSpawnEnv c.defaultEnv opts.env),
       Effect.emitSpawned opts.name], ?_, ?_⟩
    · simp [Controller.spawnAgent, Controller.ensureInit, hinit, Bind.bind, Except.bind]
    · simp
  · intro o ho hv
    refine ⟨spreadEnv c.defaultEnv o, ?_, ?_⟩
    · simp [mergeSpawnEnv, ho]
    · unfold spreadEnv
      rw [alistGet_append_right]
      · exact hv
      · exact alistGet_filter_keyless _ _ _ (by simp [hv])
  · intro o ho ho2 hd
    refine ⟨spreadEnv c.defaultEnv o, ?_, ?_⟩
    · simp [mergeSpawnEnv, ho]
    · unfold spreadEnv
      apply alistGet_append_left
      have : ∀ (l : EnvMap), alistGet l k = some v →
          alistGet (l.filter (fun p => (alistGet o p.1).isNone)) k = some v := by
        intro l
        induction l with
        | nil => intro h; simp [alistGet] at h
        | cons p rest ih =>
          intro h
          rw [alistGet_cons] at h
          rw [List.filter_cons]
          by_cases hp : p.1 = k
          · rw [if_pos hp] at h
            rw [if_pos (by simp [hp, ho2])]
            rw [alistGet_cons, if_pos hp]
            exact h
          · rw [if_neg hp] at h
            by_cases hq : (alistGet o p.1).isNone
            · rw [if_pos (by simpa using hq), alistGet_cons, if_neg hp]
              exact ih h
            · rw [if_neg (by simpa using hq)]
              exact ih h
      exact this c.defaultEnv hd
  · intro ho hd
    have hne : c.defaultEnv.length > 0 := by
      cases hq : c.defaultEnv with
      | nil => rw [hq] at hd; simp [alistGet] at hd
      | cons p rest => simp [hq]
    refine ⟨spreadEnv c.defaultEnv [], ?_, ?_⟩
    · simp [mergeSpawnEnv, ho, hne]
    · unfold spreadEnv
      apply alistGet_append_left
      have : (c.defaultEnv.filter (fun p => (alistGet ([] : EnvMap) p.1).isNone)) =
          c.defaultEnv := by
        apply List.filter_eq_self.mpr
        intro p _
        simp [alistGet]
      rw [this]
      exact hd

/-- Witness for C8. -/
theorem spawn_env_merge_witness :
    (∃ m, mergeSpawnEnv [("A", "d1"), ("B", "d2")] (some [("A", "o1")]) = some m ∧
      alistGet m "A" = some "o1") ∧
    (∃ m, mergeSpawnEnv [("A", "d1"), ("B", "d2")] (some [("A", "o1")]) = some m ∧
      alistGet m "B" = some "d2") :=
  have h1 := spawn_env_merge
    { teamName := "t", defaultEnv := [("A", "d1"), ("B", "d2")], initialized := true,
      members := [], running := [], ledger := TaskLedger.initial, colorIndex := 0 }
    { name := "w1", env := some [("A", "o1")] } rfl "A" "o1"
  have h2 := spawn_env_merge
    { teamName := "t", defaultEnv := [("A", "d1"), ("B", "d2")], initialized := true,
      members := [], running := [], ledger := TaskLedger.initial, colorIndex := 0 }
    { name := "w1", env := some [("A", "o1")] } rfl "B" "d2"
  ⟨h1.2.1 [("A", "o1")] rfl (by decide),
   h2.2.2.1 [("A", "o1")] rfl (by decide) (by decide)⟩

/-- C6: when the controller emits agent:exited for agent A, the tracker
removes from its snapshot every pending approval whose agent field is A and
the idle entry of A, while every pending approval of any other agent and
every other idle entry remain unchanged. -/
theorem tracker_exit_purges (t : TrackerState) (A : String) :
    (∀ pa ∈ (t.onExited A).getPendingApprovals, pa.agent ≠ A) ∧
    (∀ pa ∈ t.getPendingApprovals, pa.agent ≠ A →
      pa ∈ (t.onExited A).getPendingApprovals) ∧
    (∀ pa ∈ (t.onExited A).getPendingApprovals, pa ∈ t.getPendingApprovals) ∧
    alistGet (t.onExited A).idles A = none ∧
    (∀ n, n ≠ A → alistGet (t.onExited A).idles n = alistGet t.idles n) := by
  refine ⟨?_, ?_, ?_, ?_, ?_⟩
  · intro pa hpa
    simp only [TrackerState.onExited, TrackerState.getPendingApprovals,
      List.mem_map, List.mem_filter] at hpa
    obtain ⟨p, ⟨_, hpred⟩, rfl⟩ := hpa
    simpa using hpred
  · intro pa hpa hne
    simp only [TrackerState.getPendingApprovals, List.mem_map] at hpa
    obtain ⟨p, hp, rfl⟩ := hpa
    simp only [TrackerState.onExited, TrackerState.getPendingApprovals,
      List.mem_map, List.mem_filter]
    exact ⟨p, ⟨hp, by simpa using hne⟩, rfl⟩
  · intro pa hpa
    simp only [TrackerState.onExited, TrackerState.getPendingApprovals,
      List.mem_map, List.mem_filter] at hpa
    obtain ⟨p, ⟨hp, _⟩, rfl⟩ := hpa
    simp only [TrackerState.getPendingApprovals, List.mem_map]
    exact ⟨p, hp, rfl⟩
  · simpa [TrackerState.onExited] using alistGet_erase_self t.idles A
  · intro n hn
    simpa [TrackerState.onExited] using alistGet_erase_ne t.idles A n hn

/-- Concrete tracker for the C6 witness: a plan approval of w1, a permission
approval of w2, and idle entries for both. -/
def paW1 : PendingApproval :=
  { kind := .plan, agent := "w1", requestId := "r1", timestamp := "t1",
    action := "POST /agents/w1/approve-plan", planContent := some "plan" }

def paW2 : PendingApproval :=
  { kind := .permission, agent := "w2", requestId := "r2", timestamp := "t2",
    action := "POST /agents/w2/approve-permission", toolName := some "Bash",
    description := some "run ls" }

def trackerEx : TrackerState :=
  { approvals := [("r1", paW1), ("r2", paW2)],
    idles := [("w1", { name := "w1", agentType := "general-purpose", idleSince := "t1",
                       action := "POST /agents/w1/messages" }),
              ("w2", { name := "w2", agentType := "general-purpose", idleSince := "t2",
                       action := "POST /agents/w2/messages" })],
    agentTypes := [] }

theorem tracker_exit_purges_witness :
    paW2 ∈ (trackerEx.onExited "w1").getPendingApprovals ∧
    alistGet (trackerEx.onExited "w1").idles "w1" = none ∧
    alistGet (trackerEx.onExited "w1").idles "w2" = alistGet trackerEx.idles "w2" :=
  have h := tracker_exit_purges trackerEx "w1"
  ⟨h.2.1 paW2 (by decide) (by decide), h.2.2.2.1, h.2.2.2.2 "w2" (by decide)⟩

/-- A concrete initialized controller with empty state, shared by the
route-level evaluations. -/
def ctrlEx : Controller :=
  { teamName := "team1", defaultEnv := [], initialized := true, members := [],
    running := [], ledger := TaskLedger.initial, colorIndex := 0 }

/-- A concrete API state holding `ctrlEx` and an empty tracker. -/
def stEx : ApiStateM := { controller := some ctrlEx, tracker := TrackerState.empty }

/-- C10: with a body containing only a requestId, the approve-plan and
approve-permission routes write an envelope with approved = true to the
agent mailbox and remove any tracked approval with that requestId — also
when the tracker never recorded such a request (the state is arbitrary). -/
theorem approve_routes_default_true (st : ApiStateM) (c : Controller)
    (name rid ts : String) (hc : st.controller = some c)
    (hinit : c.initialized = true) :
    approvePlanRoute st name { requestId := some rid } ts =
      .resp 200 { controller := some c, tracker := st.tracker.resolveApproval rid }
        [.inboxAppend name
          { fromName := "controller", text := planApprovalPayload rid true none ts,
            timestamp := ts }] ∧
    classify (planApprovalPayload rid true none ts) = .planResp rid true none ∧
    alistGet (st.tracker.resolveApproval rid).approvals rid = none ∧
    approvePermissionRoute st name { requestId := some rid } ts =
      .resp 200 { controller := some c, tracker := st.tracker.resolveApproval rid }
        [.inboxAppend name
          { fromName := "controller", text := permissionResponsePayload rid true ts,
            timestamp := ts }] ∧
    classify (permissionResponsePayload rid true ts) = .permResp rid true := by
  refine ⟨?_, ?_, ?_, ?_, ?_⟩
  · simp [approvePlanRoute, hc, Controller.sendPlanApproval, Controller.send,
          Controller.ensureInit, hinit, Bind.bind, Except.bind]
  · rfl
  · exact alistGet_erase_self st.tracker.approvals rid
  · simp [approvePermissionRoute, hc, Controller.sendPermissionResponse, Controller.send,
          Controller.ensureInit, hinit, Bind.bind, Except.bind]
  · rfl

/-- Witness for C10 at the concrete empty state (no outstanding request was
ever recorded for the resolved id). -/
theorem approve_routes_default_true_witness :
    approvePlanRoute stEx "coder" { requestId := some "plan-xyz" } "t0" =
      .resp 200 { controller := some ctrlEx,
                  tracker := TrackerState.empty.resolveApproval "plan-xyz" }
        [.inboxAppend "coder"
          { fromName := "controller",
            text := planApprovalPayload "plan-xyz" true none "t0",
            timestamp := "t0" }] ∧
    alistGet (TrackerState.empty.resolveApproval "plan-xyz").approvals "plan-xyz" = none :=
  have h := approve_routes_default_true stEx ctrlEx "coder" "plan-xyz" "t0" rfl rfl
  ⟨h.1, h.2.2.1⟩

/-- C1 (code evaluation): the `:name` and `:id` path parameters of the
message, kill, task and approve routes are not validated.  At path-traversal
inputs the handlers carry out the mailbox append, process kill, registry
removal or ledger read and answer 200/404, although `safeName` rejects the
value — no validation error is produced before the filesystem-layer
operation.  The repository test suite (describe block "createApi
validation") expects a 400 validation failure on these same inputs. -/
theorem routes_skip_path_validation :
    safeName "../evil" = false ∧
    postAgentMessages stEx "../evil" { message := some "hi" } "t0" =
      .resp 200 stEx [.inboxAppend "../evil"
        { fromName := "controller", text := .raw "hi", timestamp := "t0" }] ∧
    postAgentKill stEx "../evil" =
      .resp 200 stEx [.procKill "../evil", .memberRemove "../evil"] ∧
    safeName "../../etc/passwd" = false ∧
    getTaskRoute stEx "../../etc/passwd" =
      .resp 404 stEx [.taskGet "../../etc/passwd"] ∧
    approvePlanRoute stEx "../evil" { requestId := some "r1" } "t0" =
      .resp 200 { controller := some ctrlEx,
                  tracker := TrackerState.empty.resolveApproval "r1" }
        [.inboxAppend "../evil"
          { fromName := "controller", text := planApprovalPayload "r1" true none "t0",
            timestamp := "t0" }] := by
  refine ⟨by decide, ?_, ?_, by decide, ?_, ?_⟩ <;> rfl

theorem typeName_eq_idle {p : ParsedMessage} (h : typeName p = "idle_notification") :
    p = .idleNote := by
  cases p <;> simp_all [typeName]

theorem contentPred_not_protocol {m : InboxMessage} (h : contentPred m = true) :
    isProtocolOnly (classify m.text) = false := by
  unfold contentPred at h
  simp only [Bool.and_eq_true, Bool.not_eq_true'] at h
  exact h.2

theorem idlePred_classify {m : InboxMessage} (h : idlePred m = true) :
    classify m.text = .idleNote := by
  unfold idlePred at h
  exact typeName_eq_idle (by simpa using h)

theorem selectMeaningful_sound (name : String) (all : Bool)
    (batch msgs : List InboxMessage)
    (h : selectMeaningful name all batch = some msgs) :
    (∀ m ∈ msgs, contentPred m = true) ∨ (∀ m ∈ msgs, idlePred m = true) := by
  simp only [selectMeaningful] at h
  split at h
  · split at h
    · left
      injection h with h
      subst h
      intro m hm
      have hmem : m ∈ (batch.filter (fun m => m.fromName == name)).filter contentPred := by
        cases all with
        | true => simpa using hm
        | false => exact List.take_subset _ _ (by simpa using hm)
      exact (List.mem_filter.mp hmem).2
    · split at h
      · right
        injection h with h
        subst h
        intro m hm
        have hmem : m ∈ (batch.filter (fun m => m.fromName == name)).filter idlePred := by
          cases all with
          | true => simpa using hm
          | false => exact List.take_subset _ _ (by simpa using hm)
        exact (List.mem_filter.mp hmem).2
      · exact absurd h (by simp)
  · exact absurd h (by simp)

/-- C3: receive and receiveAny never deliver a message classified as
shutdown_approved, plan_approval_response or permission_response, and when
the only qualifying traffic from the polled sender is an idle notification,
receive returns that idle notification instead of treating the inbox as
empty. -/
theorem receive_filters_protocol (name : String) (all : Bool)
    (batch : List InboxMessage) :
    (∀ msgs, selectMeaningful name all batch = some msgs →
      ∀ m ∈ msgs, isProtocolOnly (classify m.text) = false) ∧
    (∀ m, selectAny batch = some m → isProtocolOnly (classify m.text) = false) ∧
    ((∃ m ∈ batch, m.fromName = name ∧ classify m.text = .idleNote) →
     (∀ m ∈ batch, m.fromName = name →
        classify m.text = .idleNote ∨ isProtocolOnly (classify m.text) = true) →
     ∃ msgs, selectMeaningful name all batch = some msgs ∧ msgs ≠ [] ∧
       ∀ m ∈ msgs, classify m.text = .idleNote) := by
  refine ⟨?_, ?_, ?_⟩
  · intro msgs h m hm
    rcases selectMeaningful_sound name all batch msgs h with hc | hi
    · exact contentPred_not_protocol (hc m hm)
    · rw [idlePred_classify (hi m hm)]
      decide
  · intro m h
    unfold selectAny at h
    have hmem : m ∈ batch.filter contentPred := by
      cases hq : batch.filter contentPred with
      | nil => rw [hq] at h; simp at h
      | cons x xs =>
        rw [hq] at h
        simp only [List.head?] at h
        injection h with h
        rw [← h]
        exact List.mem_cons_self x xs
    exact contentPred_not_protocol (List.mem_filter.mp hmem).2
  · rintro ⟨m0, hm0b, hm0f, hm0idle⟩ hall
    have hm0fa : m0 ∈ batch.filter (fun m => m.fromName == name) :=
      List.mem_filter.mpr ⟨hm0b, by simp [hm0f]⟩
    have hmeannil : (batch.filter (fun m => m.fromName == name)).filter contentPred = [] := by
      rw [List.filter_eq_nil_iff]
      intro m hm
      have hmb := List.mem_filter.mp hm
      have hmf : m.fromName = name := by simpa using hmb.2
      rcases hall m hmb.1 hmf with hidle | hproto
      · simp [contentPred, hidle, typeName]
      · simp [contentPred, hproto]
    have hm0idles : m0 ∈ (batch.filter (fun m => m.fromName == name)).filter idlePred :=
      List.mem_filter.mpr ⟨hm0fa, by simp [idlePred, hm0idle, typeName]⟩
    have h1 : (batch.filter (fun m => m.fromName == name)).length > 0 :=
      List.length_pos.mpr (List.ne_nil_of_mem hm0fa)
    have h3 : ((batch.filter (fun m => m.fromName == name)).filter idlePred).length > 0 :=
      List.length_pos.mpr (List.ne_nil_of_mem hm0idles)
    refine ⟨if all then (batch.filter (fun m => m.fromName == name)).filter idlePred
            else ((batch.filter (fun m => m.fromName == name)).filter idlePred).take 1,
      ?_, ?_, ?_⟩
    · simp only [selectMeaningful]
      rw [if_pos h1, hmeannil]
      simp only [List.length_nil]
      rw [if_neg (gt_irrefl 0), if_pos h3]
    · cases all with
      | true =>
        simp only [if_true]
        exact List.ne_nil_of_mem hm0idles
      | false =>
        simp only [Bool.false_eq_true, if_false]
        intro hnil
        rw [List.take_eq_nil_iff] at hnil
        rcases hnil with h | h
        · exact absurd h (by simp [List.ne_nil_of_mem hm0idles])
        · simp at h
          exact h m0 hm0b (List.mem_filter.mp hm0idles).2 hm0f
    · intro m hm
      have hmem : m ∈ (batch.filter (fun m => m.fromName == name)).filter idlePred := by
        cases all with
        | true => simpa using hm
        | false => exact List.take_subset _ _ (by simpa using hm)
      exact idlePred_classify (List.mem_filter.mp hmem).2

/-- Concrete envelopes for the receive witnesses. -/
def idleMsgEx : InboxMessage :=
  { fromName := "w1",
    text := .obj [("type", .str "idle_notification"), ("from", .str "w1"),
                  ("timestamp", .str "t0")],
    timestamp := "t0" }

def planRespMsgEx : InboxMessage :=
  { fromName := "w1",
    text := .obj [("type", .str "plan_approval_response"), ("requestId", .str "r9"),
                  ("approved", .toggle true), ("timestamp", .str "t0")],
    timestamp := "t0" }

theorem receive_filters_protocol_witness :
    (∃ msgs, selectMeaningful "w1" false [planRespMsgEx, idleMsgEx] = some msgs ∧
      msgs ≠ [] ∧ ∀ m ∈ msgs, classify m.text = .idleNote) :=
  (receive_filters_protocol "w1" false [planRespMsgEx, idleMsgEx]).2.2
    ⟨idleMsgEx, by decide, by decide, by decide⟩ (by decide)

theorem selectMeaningful_triad_none (name : String) (all : Bool)
    (b : List InboxMessage)
    (h : ∀ m ∈ b, m.fromName = name → isProtocolOnly (classify m.text) = true) :
    selectMeaningful name all b = none := by
  simp only [selectMeaningful]
  by_cases h1 : (b.filter (fun m => m.fromName == name)).length > 0
  · rw [if_pos h1]
    have hm : (b.filter (fun m => m.fromName == name)).filter contentPred = [] := by
      rw [List.filter_eq_nil_iff]
      intro m hm
      have hmb := List.mem_filter.mp hm
      have hproto := h m hmb.1 (by simpa using hmb.2)
      simp [contentPred, hproto]
    have hi : (b.filter (fun m => m.fromName == name)).filter idlePred = [] := by
      rw [List.filter_eq_nil_iff]
      intro m hm
      have hmb := List.mem_filter.mp hm
      have hproto := h m hmb.1 (by simpa using hmb.2)
      intro hidle
      rw [idlePred_classify hidle] at hproto
      exact absurd hproto (by decide)
    rw [hm, hi]
    simp
  · rw [if_neg h1]

theorem selectMeaningful_nontriad_some (name : String) (all : Bool)
    (b : List InboxMessage) (m : InboxMessage) (hmb : m ∈ b)
    (hmf : m.fromName = name) (hproto : isProtocolOnly (classify m.text) = false) :
    ∃ msgs, selectMeaningful name all b = some msgs := by
  have hmfa : m ∈ b.filter (fun m => m.fromName == name) :=
    List.mem_filter.mpr ⟨hmb, by simp [hmf]⟩
  have h1 : (b.filter (fun m => m.fromName == name)).length > 0 :=
    List.length_pos.mpr (List.ne_nil_of_mem hmfa)
  simp only [selectMeaningful]
  rw [if_pos h1]
  by_cases h2 : ((b.filter (fun m => m.fromName == name)).filter contentPred).length > 0
  · rw [if_pos h2]
    exact ⟨_, rfl⟩
  · rw [if_neg h2]
    have hcm : contentPred m = false := by
      by_contra hc
      have hct : contentPred m = true := by
        cases hq : contentPred m with
        | true => rfl
        | false => exact absurd hq hc
      exact h2 (List.length_pos.mpr (List.ne_nil_of_mem
        (List.mem_filter.mpr ⟨hmfa, hct⟩)))
    have hidle : idlePred m = true := by
      simp only [contentPred] at hcm
      rw [hproto] at hcm
      simp at hcm
      simp [idlePred, hcm]
    have h3 : ((b.filter (fun m => m.fromName == name)).filter idlePred).length > 0 :=
      List.length_pos.mpr (List.ne_nil_of_mem (List.mem_filter.mpr ⟨hmfa, hidle⟩))
    rw [if_pos h3]
    exact ⟨_, rfl⟩

theorem receiveRun_all_triad (name : String) (T : Nat) (all : Bool) :
    ∀ polls : List (List InboxMessage),
    (∀ b ∈ polls, ∀ m ∈ b, m.fromName = name → isProtocolOnly (classify m.text) = true) →
    receiveRun name T all polls = .error (receiveTimeoutMsg name T) := by
  intro polls
  induction polls with
  | nil => intro _; rfl
  | cons b rest ih =>
    intro h
    simp only [receiveRun]
    rw [selectMeaningful_triad_none name all b (h b (by simp))]
    exact ih (fun b2 hb2 => h b2 (by simp [hb2]))

theorem receiveRun_success (name : String) (T : Nat) (all : Bool) :
    ∀ polls : List (List InboxMessage), ∀ b ∈ polls, ∀ m ∈ b,
    m.fromName = name → isProtocolOnly (classify m.text) = false →
    ∃ msgs, receiveRun name T all polls = .ok msgs := by
  intro polls
  induction polls with
  | nil => intro b hb; simp at hb
  | cons b2 rest ih =>
    intro b hb m hm hmf hproto
    simp only [receiveRun]
    rcases List.mem_cons.mp hb with rfl | hbr
    · obtain ⟨msgs, hsel⟩ := selectMeaningful_nontriad_some name all b m hm hmf hproto
      rw [hsel]
      exact ⟨msgs, rfl⟩
    · cases hsel : selectMeaningful name all b2 with
      | some msgs => exact ⟨msgs, rfl⟩
      | none => exact ih b hbr m hm hmf hproto

/-- A permission_request envelope from w1: neither plain text nor an idle
notification, yet outside the protocol-only triad. -/
def permReqMsgEx : InboxMessage :=
  { fromName := "w1",
    text := .obj [("type", .str "permission_request"), ("requestId", .str "perm-1"),
                  ("toolName", .str "Bash"), ("description", .str "run ls"),
                  ("timestamp", .str "t0")],
    timestamp := "t0" }

/-- C4 counterexample: with a poll schedule whose only traffic from the
sender is a permission_request — not plain text and not an idle
notification — receive succeeds and returns that message, where the claim
as stated requires a timeout failure. -/
theorem receive_succeeds_on_protocol_request :
    receiveRun "w1" 60000 false [[permReqMsgEx]] = .ok [permReqMsgEx] ∧
    classify permReqMsgEx.text = .permReq "perm-1" "Bash" "run ls" := by
  exact ⟨rfl, rfl⟩

/-- C4 (amended): receive fails with the timeout error — whose text names
the sender and the bound T — exactly when every message from that sender in
every poll before the deadline classifies as one of the protocol-only triad
(or no message from the sender arrives at all), and succeeds as soon as any
message from the sender outside the triad, in particular plain text or an
idle notification, is present in the unread mailbox. -/
theorem receive_timeout_amended (name : String) (T : Nat) (all : Bool)
    (polls : List (List InboxMessage)) :
    ((∀ b ∈ polls, ∀ m ∈ b, m.fromName = name → isProtocolOnly (classify m.text) = true) →
      receiveRun name T all polls = .error (receiveTimeoutMsg name T) ∧
      strContains (receiveTimeoutMsg name T) (toString T) ∧
      strContains (receiveTimeoutMsg name T) name) ∧
    (∀ b ∈ polls, ∀ m ∈ b, m.fromName = name → isProtocolOnly (classify m.text) = false →
      ∃ msgs, receiveRun name T all polls = .ok msgs) := by
  constructor
  · intro h
    refine ⟨receiveRun_all_triad name T all polls h, ?_, ?_⟩
    · refine ⟨"Timeout (", "ms) waiting for message from \"" ++ name ++ "\"", ?_⟩
      simp [receiveTimeoutMsg, String.append_assoc]
    · refine ⟨"Timeout (" ++ toString T ++ "ms) waiting for message from \"", "\"", ?_⟩
      simp [receiveTimeoutMsg, String.append_assoc]
  · exact receiveRun_success name T all polls

/-- Witness for the amended C4: a triad-only schedule times out with the
exact error text; an idle-only schedule succeeds. -/
theorem receive_timeout_amended_witness :
    receiveRun "w1" 5 false [[planRespMsgEx]] = .error (receiveTimeoutMsg "w1" 5) ∧
    (∃ msgs, receiveRun "w1" 5 false [[idleMsgEx]] = .ok msgs) :=
  ⟨((receive_timeout_amended "w1" 5 false [[planRespMsgEx]]).1 (by decide)).1,
   (receive_timeout_amended "w1" 5 false [[idleMsgEx]]).2
     [idleMsgEx] (by decide) idleMsgEx (by decide) (by decide) (by decide)⟩

/-- C2: over any trace of ledger operations started on a fresh ledger, the
identifiers handed out by the create operations are the decimal strings
"1", "2", ... in creation order — hence assigned strictly increasingly and
pairwise distinct, never reused even when deletes interleave — and when the
trace deletes nothing, listing after N creates returns exactly N records. -/
theorem task_ids_monotone (ops : List LedgerOp) :
    (runOps TaskLedger.initial ops).2 =
      (List.range (countCreates ops)).map (fun i => natToDecStr (i + 1)) ∧
    (runOps TaskLedger.initial ops).2.Nodup ∧
    (hasDelete ops = false →
      ((runOps TaskLedger.initial ops).1.list).length = countCreates ops) := by
  have hids := runOps_ids TaskLedger.initial ops
  have heq : (List.range (countCreates ops)).map
        (fun i => natToDecStr (TaskLedger.initial.nextId + i)) =
      (List.range (countCreates ops)).map (fun i => natToDecStr (i + 1)) := by
    apply List.map_congr_left
    intro i _
    simp only [TaskLedger.initial]
    congr 1
    omega
  refine ⟨?_, ?_, ?_⟩
  · rw [hids, heq]
  · rw [hids, heq]
    have hinj : Function.Injective (fun i => natToDecStr (i + 1)) := by
      intro a b hab
      have := natToDecStr_injective hab
      omega
    exact List.Nodup.map hinj (List.nodup_range _)
  · intro h
    have := runOps_count TaskLedger.initial ops h
    simpa [TaskLedger.initial, TaskLedger.list] using this

/-- Concrete traces for the C2 witness: creates interleaved with an update
and a delete, and a delete-free trace. -/
def opsEx : List LedgerOp :=
  [.createOp { subject := "a", description := "da" },
   .createOp { subject := "b", description := "db" },
   .updateOp "2" { status := some .in_progress },
   .deleteOp "1",
   .createOp { subject := "c", description := "dc" }]

def opsEx2 : List LedgerOp :=
  [.createOp { subject := "a", description := "da" },
   .createOp { subject := "b", description := "db" }]

theorem task_ids_monotone_witness :
    (runOps TaskLedger.initial opsEx).2 = ["1", "2", "3"] ∧
    (runOps TaskLedger.initial opsEx).2.Nodup ∧
    ((runOps TaskLedger.initial opsEx2).1.list).length = 2 :=
  have h1 := task_ids_monotone opsEx
  have h2 := task_ids_monotone opsEx2
  ⟨by rw [h1.1]; decide, h1.2.1, by rw [h2.2.2 rfl]; decide⟩

theorem find?_append_none {α : Type} (p : α → Bool) (l₁ l₂ : List α)
    (h : l₁.find? p = none) : (l₁ ++ l₂).find? p = l₂.find? p := by
  induction l₁ with
  | nil => simp
  | cons x xs ih =>
    rw [List.find?_cons] at h
    rw [List.cons_append, List.find?_cons]
    cases hq : p x with
    | true => rw [hq] at h; exact absurd h (by simp)
    | false =>
      rw [hq] at h
      exact ih h

theorem ledger_get_created (l : TaskLedger) (inp : CreateTaskInput)
    (hfresh : ∀ t ∈ l.tasks, t.id ≠ natToDecStr l.nextId) :
    (l.create inp).2.get (l.create inp).1 =
      some { id := natToDecStr l.nextId, subject := inp.subject,
             description := inp.description, status := inp.status.getD .pending,
             owner := inp.owner, blocks := inp.blocks, blockedBy := inp.blockedBy } := by
  unfold TaskLedger.create TaskLedger.get
  simp only
  rw [find?_append_none]
  · simp
  · rw [List.find?_eq_none]
    intro x hx
    simp [hfresh x hx]

/-- C5: createTask with an owner set appends exactly one envelope to the
owner mailbox, whose text classifies as a task_assignment carrying the new
task id and the subject stored in the created record; with no owner set,
no envelope is sent to anyone. -/
theorem createTask_owner_assignment (c : Controller) (inp : CreateTaskInput)
    (ts : String) (hinit : c.initialized = true)
    (hfresh : ∀ t ∈ c.ledger.tasks, t.id ≠ natToDecStr c.ledger.nextId) :
    (∀ w, inp.owner = some w →
      Controller.createTask c inp ts =
        .ok (natToDecStr c.ledger.nextId,
             { c with ledger := (c.ledger.create inp).2 },
             [.inboxAppend w
               { fromName := "controller",
                 text := taskAssignmentPayload (natToDecStr c.ledger.nextId)
                           inp.subject inp.description ts,
                 timestamp := ts }]) ∧
      classify (taskAssignmentPayload (natToDecStr c.ledger.nextId)
                  inp.subject inp.description ts) =
        .taskAssign (natToDecStr c.ledger.nextId) inp.subject inp.description
          "controller") ∧
    (inp.owner = none →
      Controller.createTask c inp ts =
        .ok (natToDecStr c.ledger.nextId,
             { c with ledger := (c.ledger.create inp).2 }, [])) := by
  constructor
  · intro w hw
    constructor
    · simp only [Controller.createTask, Controller.ensureInit, hinit, if_true,
        Bind.bind, Except.bind, hw]
      rw [ledger_get_created c.ledger inp hfresh]
      simp [Controller.send, Controller.ensureInit, hinit, Bind.bind, Except.bind,
        TaskLedger.create]
    · rfl
  · intro hw
    simp [Controller.createTask, Controller.ensureInit, hinit, Bind.bind,
      Except.bind, hw, TaskLedger.create]

/-- Witness for C5 on a fresh controller: the first task id renders as "1"
and the assignment payload classifies back with the same subject. -/
theorem createTask_owner_assignment_witness :
    classify (taskAssignmentPayload (natToDecStr ctrlEx.ledger.nextId)
        "Build feature" "Build it" "t0") =
      .taskAssign (natToDecStr ctrlEx.ledger.nextId) "Build feature" "Build it"
        "controller" ∧
    natToDecStr ctrlEx.ledger.nextId = "1" :=
  have h := createTask_owner_assignment ctrlEx
    { subject := "Build feature", description := "Build it", owner := some "w1" }
    "t0" rfl (by decide)
  ⟨(h.1 "w1" rfl).2, by decide⟩

/-- Witness for C7 at a concrete controller. -/
theorem init_idempotent_witness :
    Controller.init (Controller.init ctrlUninit).1 = ((Controller.init ctrlUninit).1, []) :=
  init_idempotent ctrlUninit

end CCC
